import Mathlib

/-!
Verification of the goblin-forge market-data and trade-lifecycle engine.

This file shallowly embeds the core subsystems of the repository and proves
(or refutes) the specified properties about them:

* `src/data/realtime_aggregator.py` — `Timeframe`, `Bar`,
  `RealtimeAggregator._get_bar_boundary`, `_is_same_bar`,
  `_aggregate_to_timeframe`, `add_bar`;
* `src/data/trade_database.py` — `TradeDatabase.record_trade_entry`,
  `record_trade_exit`, `get_trade`, `update_trade_mae_mfe`;
* `src/execution/trailing_stop_manager.py` — `TrailingConfig`,
  `TrailingStopManager._calculate_new_stop_price`, `check_and_update_stops`;
* the position book (`Position` / `OrderManager.modify_stop`), which is
  referenced by the trailing-stop manager and by the test suite but absent
  from the shipped `order_manager.py`, and is therefore modelled from the
  specification.

Prices and P&L are embedded as exact rationals (`ℚ`); the specification's
design notes state that the float formulas must remain exact on the test
vectors, so rational arithmetic is the faithful exact model.  Timestamps are
embedded as integer unix seconds (the granularity at which the aggregator
operates; `int(datetime.timestamp())` is the identity there).
-/

/-- Timeframe enumeration from `realtime_aggregator.py` (`class Timeframe`). -/
inductive Timeframe where
  | sec5
  | min1
  | min5
  | min15
  | hour1
  | hour4
  | day1
deriving DecidableEq, Repr

/-- The `Timeframe.seconds` accessor: duration of one bar in seconds. -/
def Timeframe.seconds : Timeframe → Int
  | .sec5 => 5
  | .min1 => 60
  | .min5 => 300
  | .min15 => 900
  | .hour1 => 3600
  | .hour4 => 14400
  | .day1 => 86400

theorem Timeframe.seconds_pos (tf : Timeframe) : 0 < tf.seconds := by
  cases tf <;> decide

/-- OHLCV bar from `realtime_aggregator.py` (`@dataclass class Bar`).
`timestamp` is unix seconds; `opn` stands for the source field `open`
(a reserved word in Lean). -/
structure Bar where
  timestamp : Int
  opn : ℚ
  high : ℚ
  low : ℚ
  close : ℚ
  volume : Int
  complete : Bool := false
deriving DecidableEq, Repr

/-- The validation performed by `Bar.__post_init__`: constructing a `Bar`
raises `ValueError` unless `low ≤ open, close ≤ high` and `volume ≥ 0`.
Every `Bar` object that exists in a run of the program satisfies this. -/
def Bar.Valid (b : Bar) : Prop :=
  b.low ≤ b.high ∧ b.opn ≤ b.high ∧ b.close ≤ b.high ∧
    b.low ≤ b.opn ∧ b.low ≤ b.close ∧ 0 ≤ b.volume

instance (b : Bar) : Decidable b.Valid := by
  unfold Bar.Valid; infer_instance

/-- `RealtimeAggregator._get_bar_boundary`: `(int(ts) // S) * S`.
Python `//` is flooring division, hence `Int.fdiv`. -/
def getBarBoundary (ts : Int) (tf : Timeframe) : Int :=
  (Int.fdiv ts tf.seconds) * tf.seconds

/-- `RealtimeAggregator._is_same_bar`: two timestamps belong to the same bar
iff their boundaries coincide. -/
def isSameBar (t1 t2 : Int) (tf : Timeframe) : Bool :=
  getBarBoundary t1 tf == getBarBoundary t2 tf

/-- Flooring integer division by a positive integer is the floor of the exact
rational quotient. -/
theorem Int.fdiv_eq_floor_div (a S : Int) (hS : 0 < S) :
    Int.fdiv a S = ⌊(a : ℚ) / (S : ℚ)⌋ := by
  rw [Int.fdiv_eq_ediv _ (le_of_lt hS)]
  have hnat : ((S.toNat : ℤ) : ℚ) = (S : ℚ) := by
    exact_mod_cast congrArg (Int.cast : ℤ → ℚ) (Int.toNat_of_nonneg (le_of_lt hS))
  have := Rat.floor_intCast_div_natCast a S.toNat
  rw [Int.toNat_of_nonneg (le_of_lt hS)] at this
  rw [← this]
  congr 1
  rw [← hnat]
  norm_cast

/-- C7: for every timestamp and target timeframe of `S` seconds, the bar
boundary computed by `_get_bar_boundary` is `floor(unix_seconds(t) / S) × S`,
and `_is_same_bar` holds iff the two boundaries are identical. -/
theorem barBoundary_floor_and_sameBar (ts t1 t2 : Int) (tf : Timeframe) :
    getBarBoundary ts tf = ⌊(ts : ℚ) / (tf.seconds : ℚ)⌋ * tf.seconds ∧
      (isSameBar t1 t2 tf = true ↔ getBarBoundary t1 tf = getBarBoundary t2 tf) := by
  constructor
  · unfold getBarBoundary
    rw [Int.fdiv_eq_floor_div _ _ tf.seconds_pos]
  · unfold isSameBar
    exact beq_iff_eq

/-- Per-(symbol, timeframe) aggregation state of `RealtimeAggregator`:
the in-progress bar (`_incomplete_bars`), the source-bar count
(`_bar_counts`) and the completed-bar list (`_complete_bars`). -/
structure AggState where
  incomplete : Option Bar
  count : Nat
  completeBars : List Bar
deriving DecidableEq, Repr

/-- Fresh aggregation state (the defaultdict entries before any bar). -/
def AggState.init : AggState := { incomplete := none, count := 0, completeBars := [] }

/-- The in-place update of the in-progress bar in `_aggregate_to_timeframe`
when the source bar falls in the same target bar: `high = max`, `low = min`,
`close = source close`, `volume` summed.  The timestamp (the bar boundary set
at creation) is untouched. -/
def mergeBar (cur src : Bar) : Bar :=
  { cur with
    high := max cur.high src.high
    low := min cur.low src.low
    close := src.close
    volume := cur.volume + src.volume }

/-- Starting a new in-progress bar from a source bar
(`_aggregate_to_timeframe`, both the first-bar and the new-bar branch). -/
def startIncompleteBar (src : Bar) (tf : Timeframe) : Bar :=
  { timestamp := getBarBoundary src.timestamp tf
    opn := src.opn
    high := src.high
    low := src.low
    close := src.close
    volume := src.volume
    complete := false }

/-- `RealtimeAggregator._aggregate_to_timeframe` for a single
(symbol, timeframe): returns the completed bar, if any, and the new state.
The call to `order_manager.update_position_price` on completion is a side
effect on a different component and is modelled separately. -/
def aggregateToTimeframe (st : AggState) (src : Bar) (tf : Timeframe) :
    Option Bar × AggState :=
  match st.incomplete with
  | none =>
      (none,
        { incomplete := some (startIncompleteBar src tf)
          count := 1
          completeBars := st.completeBars })
  | some cur =>
      if isSameBar src.timestamp cur.timestamp tf then
        (none,
          { incomplete := some (mergeBar cur src)
            count := st.count + 1
            completeBars := st.completeBars })
      else
        (some { cur with complete := true },
          { incomplete := some (startIncompleteBar src tf)
            count := 1
            completeBars := st.completeBars ++ [{ cur with complete := true }] })

/-- `RealtimeAggregator.add_bar`: run `_aggregate_to_timeframe` for every
target timeframe, collecting the completed bars.  The per-timeframe states
live in a function `Timeframe → AggState` (the nested dictionaries). -/
def addBar (tfs : List Timeframe) (st : Timeframe → AggState) (src : Bar) :
    List (Timeframe × Bar) × (Timeframe → AggState) :=
  tfs.foldl
    (fun acc tf =>
      let step := aggregateToTimeframe (acc.2 tf) src tf
      (match step.1 with
        | none => acc.1
        | some b => acc.1 ++ [(tf, b)],
        fun t => if t = tf then step.2 else acc.2 t))
    ([], st)

/-- Feeding a list of source bars through the per-timeframe aggregation. -/
def runAgg (tf : Timeframe) (st : AggState) (bs : List Bar) : AggState :=
  bs.foldl (fun s b => (aggregateToTimeframe s b tf).2) st

theorem getBarBoundary_idem (t : Int) (tf : Timeframe) :
    getBarBoundary (getBarBoundary t tf) tf = getBarBoundary t tf := by
  unfold getBarBoundary
  rw [Int.mul_fdiv_cancel _ (ne_of_gt tf.seconds_pos)]

theorem mergeBar_timestamp (cur src : Bar) : (mergeBar cur src).timestamp = cur.timestamp := rfl

theorem foldl_mergeBar_timestamp (bs : List Bar) (cur : Bar) :
    (bs.foldl mergeBar cur).timestamp = cur.timestamp := by
  induction bs generalizing cur with
  | nil => rfl
  | cons b t ih => simpa [mergeBar] using ih (mergeBar cur b)

theorem foldl_mergeBar_opn (bs : List Bar) (cur : Bar) :
    (bs.foldl mergeBar cur).opn = cur.opn := by
  induction bs generalizing cur with
  | nil => rfl
  | cons b t ih => simpa [mergeBar] using ih (mergeBar cur b)

theorem foldl_mergeBar_complete (bs : List Bar) (cur : Bar) :
    (bs.foldl mergeBar cur).complete = cur.complete := by
  induction bs generalizing cur with
  | nil => rfl
  | cons b t ih => simpa [mergeBar] using ih (mergeBar cur b)

theorem foldl_mergeBar_close (bs : List Bar) (cur : Bar) :
    (bs.foldl mergeBar cur).close = (bs.map Bar.close).getLastD cur.close := by
  induction bs generalizing cur with
  | nil => rfl
  | cons b t ih =>
      simp only [List.foldl_cons, List.map_cons, List.getLastD_cons]
      simpa [mergeBar] using ih (mergeBar cur b)

theorem foldl_mergeBar_volume (bs : List Bar) (cur : Bar) :
    (bs.foldl mergeBar cur).volume = cur.volume + (bs.map Bar.volume).sum := by
  induction bs generalizing cur with
  | nil => simp
  | cons b t ih =>
      simp only [List.foldl_cons, List.map_cons, List.sum_cons]
      rw [ih (mergeBar cur b)]
      simp [mergeBar]
      ring

theorem foldl_mergeBar_high (bs : List Bar) (cur : Bar) :
    (bs.foldl mergeBar cur).high = (bs.map Bar.high).foldl max cur.high := by
  induction bs generalizing cur with
  | nil => rfl
  | cons b t ih =>
      simp only [List.foldl_cons, List.map_cons]
      simpa [mergeBar] using ih (mergeBar cur b)

theorem foldl_mergeBar_low (bs : List Bar) (cur : Bar) :
    (bs.foldl mergeBar cur).low = (bs.map Bar.low).foldl min cur.low := by
  induction bs generalizing cur with
  | nil => rfl
  | cons b t ih =>
      simp only [List.foldl_cons, List.map_cons]
      simpa [mergeBar] using ih (mergeBar cur b)

theorem foldl_max_mem (a : ℚ) (l : List ℚ) : l.foldl max a ∈ a :: l := by
  induction l generalizing a with
  | nil => simp
  | cons b t ih =>
      have h := ih (max a b)
      simp only [List.foldl_cons]
      rcases List.mem_cons.1 h with h' | h'
      · rcases max_choice a b with hc | hc
        · rw [h', hc]; exact List.mem_cons_self _ _
        · rw [h', hc]; exact List.mem_cons.2 (Or.inr (List.mem_cons_self _ _))
      · exact List.mem_cons.2 (Or.inr (List.mem_cons.2 (Or.inr h')))

theorem le_foldl_max (a : ℚ) (l : List ℚ) :
    a ≤ l.foldl max a ∧ ∀ x ∈ l, x ≤ l.foldl max a := by
  induction l generalizing a with
  | nil => simp
  | cons b t ih =>
      obtain ⟨h1, h2⟩ := ih (max a b)
      simp only [List.foldl_cons]
      refine ⟨le_trans (le_max_left a b) h1, ?_⟩
      intro x hx
      rcases List.mem_cons.1 hx with h' | h'
      · rw [h']
        exact le_trans (le_max_right a b) h1
      · exact h2 x h'

theorem foldl_min_mem (a : ℚ) (l : List ℚ) : l.foldl min a ∈ a :: l := by
  induction l generalizing a with
  | nil => simp
  | cons b t ih =>
      have h := ih (min a b)
      simp only [List.foldl_cons]
      rcases List.mem_cons.1 h with h' | h'
      · rcases min_choice a b with hc | hc
        · rw [h', hc]; exact List.mem_cons_self _ _
        · rw [h', hc]; exact List.mem_cons.2 (Or.inr (List.mem_cons_self _ _))
      · exact List.mem_cons.2 (Or.inr (List.mem_cons.2 (Or.inr h')))

theorem foldl_min_le (a : ℚ) (l : List ℚ) :
    l.foldl min a ≤ a ∧ ∀ x ∈ l, l.foldl min a ≤ x := by
  induction l generalizing a with
  | nil => simp
  | cons b t ih =>
      obtain ⟨h1, h2⟩ := ih (min a b)
      simp only [List.foldl_cons]
      refine ⟨le_trans h1 (min_le_left a b), ?_⟩
      intro x hx
      rcases List.mem_cons.1 hx with h' | h'
      · rw [h']
        exact le_trans h1 (min_le_right a b)
      · exact h2 x h'

theorem isSameBar_boundary_right (t u : Int) (tf : Timeframe) :
    isSameBar t (getBarBoundary u tf) tf = isSameBar t u tf := by
  unfold isSameBar
  rw [getBarBoundary_idem]

/-- Feeding bars that all fall inside the in-progress bar's interval merges
them one by one and completes nothing. -/
theorem runAgg_same_bar (tf : Timeframe) (cur : Bar) (cnt : Nat) (cbs : List Bar)
    (bs : List Bar)
    (hb : ∀ b ∈ bs, isSameBar b.timestamp cur.timestamp tf = true) :
    runAgg tf ⟨some cur, cnt, cbs⟩ bs =
      ⟨some (bs.foldl mergeBar cur), cnt + bs.length, cbs⟩ := by
  induction bs generalizing cur cnt with
  | nil => simp [runAgg]
  | cons b t ih =>
      have hb0 : isSameBar b.timestamp cur.timestamp tf = true := hb b (by simp)
      have hstep : (aggregateToTimeframe ⟨some cur, cnt, cbs⟩ b tf).2 =
          ⟨some (mergeBar cur b), cnt + 1, cbs⟩ := by
        simp [aggregateToTimeframe, hb0]
      have ht : ∀ b' ∈ t, isSameBar b'.timestamp (mergeBar cur b).timestamp tf = true := by
        intro b' hb'
        rw [mergeBar_timestamp]
        exact hb b' (by simp [hb'])
      calc runAgg tf ⟨some cur, cnt, cbs⟩ (b :: t)
          = runAgg tf ⟨some (mergeBar cur b), cnt + 1, cbs⟩ t := by
            simp only [runAgg, List.foldl_cons, hstep]
        _ = ⟨some (t.foldl mergeBar (mergeBar cur b)), cnt + 1 + t.length, cbs⟩ :=
            ih (mergeBar cur b) (cnt + 1) ht
        _ = ⟨some ((b :: t).foldl mergeBar cur), cnt + (b :: t).length, cbs⟩ := by
            simp only [List.foldl_cons, List.length_cons]
            congr 1
            omega

theorem getLastD_map_close (b0 : Bar) (rest : List Bar) :
    (rest.map Bar.close).getLastD b0.close =
      ((b0 :: rest).getLast (List.cons_ne_nil b0 rest)).close := by
  induction rest generalizing b0 with
  | nil => simp
  | cons r t ih =>
      simp only [List.map_cons, List.getLastD_cons]
      rw [ih r]
      rw [List.getLast_cons (List.cons_ne_nil r t)]

/-- C2: a completed aggregated bar assembled from the in-order source bars
`b0 :: rest` that fell inside its interval (followed by a source bar `next`
outside the interval, which triggers completion) has `open` of the first
source bar, `close` of the last, the maximum `high`, the minimum `low`, the
summed `volume`, and — given the per-bar validation invariant — satisfies
`low ≤ min(open, close) ≤ max(open, close) ≤ high`. -/
theorem aggregatedBar_ohlcv (tf : Timeframe) (cnt : Nat) (cbs : List Bar)
    (b0 : Bar) (rest : List Bar) (next : Bar)
    (hsame : ∀ b ∈ rest, isSameBar b.timestamp b0.timestamp tf = true)
    (hdiff : isSameBar next.timestamp b0.timestamp tf = false) :
    ∃ cb : Bar,
      (aggregateToTimeframe (runAgg tf ⟨none, cnt, cbs⟩ (b0 :: rest)) next tf).1 =
          some cb ∧
        cb.opn = b0.opn ∧
        cb.close = ((b0 :: rest).getLast (List.cons_ne_nil b0 rest)).close ∧
        (∀ b ∈ b0 :: rest, b.high ≤ cb.high) ∧
        cb.high ∈ (b0 :: rest).map Bar.high ∧
        (∀ b ∈ b0 :: rest, cb.low ≤ b.low) ∧
        cb.low ∈ (b0 :: rest).map Bar.low ∧
        cb.volume = ((b0 :: rest).map Bar.volume).sum ∧
        cb.complete = true ∧
        ((∀ b ∈ b0 :: rest, b.Valid) →
          cb.low ≤ min cb.opn cb.close ∧ max cb.opn cb.close ≤ cb.high) := by
  classical
  set cur0 : Bar := startIncompleteBar b0 tf with hcur0
  have hstep0 : runAgg tf ⟨none, cnt, cbs⟩ (b0 :: rest) =
      runAgg tf ⟨some cur0, 1, cbs⟩ rest := by
    simp only [runAgg, List.foldl_cons]
    rfl
  have hts0 : cur0.timestamp = getBarBoundary b0.timestamp tf := rfl
  have hsame' : ∀ b ∈ rest, isSameBar b.timestamp cur0.timestamp tf = true := by
    intro b hb
    rw [hts0, isSameBar_boundary_right]
    exact hsame b hb
  have hrun : runAgg tf ⟨some cur0, 1, cbs⟩ rest =
      ⟨some (rest.foldl mergeBar cur0), 1 + rest.length, cbs⟩ :=
    runAgg_same_bar tf cur0 1 cbs rest hsame'
  set C : Bar := rest.foldl mergeBar cur0 with hC
  have hCts : C.timestamp = getBarBoundary b0.timestamp tf := by
    rw [hC, foldl_mergeBar_timestamp]
    rfl
  have hdiff' : isSameBar next.timestamp C.timestamp tf = false := by
    rw [hCts, isSameBar_boundary_right]
    exact hdiff
  have hfinal : (aggregateToTimeframe ⟨some C, 1 + rest.length, cbs⟩ next tf).1 =
      some { C with complete := true } := by
    simp [aggregateToTimeframe, hdiff']
  refine ⟨{ C with complete := true }, ?_, ?_, ?_, ?_, ?_, ?_, ?_, ?_, rfl, ?_⟩
  · rw [hstep0, hrun]
    exact hfinal
  · show C.opn = b0.opn
    rw [hC, foldl_mergeBar_opn]
    rfl
  · show C.close = _
    rw [hC, foldl_mergeBar_close]
    exact getLastD_map_close b0 rest
  · intro b hb
    show b.high ≤ C.high
    rw [hC, foldl_mergeBar_high]
    have hbase : cur0.high = b0.high := rfl
    rw [hbase]
    rcases List.mem_cons.1 hb with h' | h'
    · rw [h']
      exact (le_foldl_max b0.high (rest.map Bar.high)).1
    · exact (le_foldl_max b0.high (rest.map Bar.high)).2 b.high
        (List.mem_map_of_mem Bar.high h')
  · show C.high ∈ _
    rw [hC, foldl_mergeBar_high]
    have hbase : cur0.high = b0.high := rfl
    rw [hbase]
    simpa using foldl_max_mem b0.high (rest.map Bar.high)
  · intro b hb
    show C.low ≤ b.low
    rw [hC, foldl_mergeBar_low]
    have hbase : cur0.low = b0.low := rfl
    rw [hbase]
    rcases List.mem_cons.1 hb with h' | h'
    · rw [h']
      exact (foldl_min_le b0.low (rest.map Bar.low)).1
    · exact (foldl_min_le b0.low (rest.map Bar.low)).2 b.low
        (List.mem_map_of_mem Bar.low h')
  · show C.low ∈ _
    rw [hC, foldl_mergeBar_low]
    have hbase : cur0.low = b0.low := rfl
    rw [hbase]
    simpa using foldl_min_mem b0.low (rest.map Bar.low)
  · show C.volume = _
    rw [hC, foldl_mergeBar_volume]
    have hbase : cur0.volume = b0.volume := rfl
    rw [hbase]
    simp
  · intro hvalid
    have hlast := List.getLast_mem (List.cons_ne_nil b0 rest)
    have hvb0 := hvalid b0 (List.mem_cons_self b0 rest)
    have hvlast := hvalid _ hlast
    have hopn : ({ C with complete := true } : Bar).opn = b0.opn := by
      show C.opn = b0.opn
      rw [hC, foldl_mergeBar_opn]; rfl
    have hclose : ({ C with complete := true } : Bar).close =
        ((b0 :: rest).getLast (List.cons_ne_nil b0 rest)).close := by
      show C.close = _
      rw [hC, foldl_mergeBar_close]
      exact getLastD_map_close b0 rest
    have hlow_le : ∀ b ∈ b0 :: rest, C.low ≤ b.low := by
      intro b hb
      rw [hC, foldl_mergeBar_low]
      have hbase : cur0.low = b0.low := rfl
      rw [hbase]
      rcases List.mem_cons.1 hb with h' | h'
      · rw [h']
        exact (foldl_min_le b0.low (rest.map Bar.low)).1
      · exact (foldl_min_le b0.low (rest.map Bar.low)).2 b.low
          (List.mem_map_of_mem Bar.low h')
    have hhigh_ge : ∀ b ∈ b0 :: rest, b.high ≤ C.high := by
      intro b hb
      rw [hC, foldl_mergeBar_high]
      have hbase : cur0.high = b0.high := rfl
      rw [hbase]
      rcases List.mem_cons.1 hb with h' | h'
      · rw [h']
        exact (le_foldl_max b0.high (rest.map Bar.high)).1
      · exact (le_foldl_max b0.high (rest.map Bar.high)).2 b.high
          (List.mem_map_of_mem Bar.high h')
    constructor
    · rw [hopn, hclose]
      refine le_min ?_ ?_
      · exact le_trans (hlow_le b0 (List.mem_cons_self b0 rest)) hvb0.2.2.2.1
      · exact le_trans (hlow_le _ hlast) hvlast.2.2.2.2.1
    · rw [hopn, hclose]
      refine max_le ?_ ?_
      · exact le_trans hvb0.2.1 (hhigh_ge b0 (List.mem_cons_self b0 rest))
      · exact le_trans hvlast.2.2.1 (hhigh_ge _ hlast)

/-- First 5-second source bar of the concrete aggregation scenario. -/
def wbar0 : Bar := { timestamp := 5, opn := 100, high := 100.5, low := 99.5, close := 100.2, volume := 1000 }

/-- Second 5-second source bar of the concrete aggregation scenario. -/
def wbar1 : Bar := { timestamp := 10, opn := 100.1, high := 100.6, low := 99.6, close := 100.3, volume := 1000 }

/-- Source bar in the next 1-minute interval, triggering completion. -/
def wbarNext : Bar := { timestamp := 65, opn := 101, high := 101.5, low := 100.5, close := 101.2, volume := 1000 }

/-- Witness for C2 at a concrete two-source-bar 1-minute aggregation. -/
theorem aggregatedBar_ohlcv_witness :
    (∀ b ∈ [wbar1], isSameBar b.timestamp wbar0.timestamp Timeframe.min1 = true) ∧
      isSameBar wbarNext.timestamp wbar0.timestamp Timeframe.min1 = false ∧
      (∃ cb : Bar,
        (aggregateToTimeframe (runAgg Timeframe.min1 ⟨none, 0, []⟩ (wbar0 :: [wbar1]))
            wbarNext Timeframe.min1).1 = some cb ∧
          cb.opn = wbar0.opn ∧
          cb.close = ((wbar0 :: [wbar1]).getLast (List.cons_ne_nil wbar0 [wbar1])).close ∧
          (∀ b ∈ wbar0 :: [wbar1], b.high ≤ cb.high) ∧
          cb.high ∈ (wbar0 :: [wbar1]).map Bar.high ∧
          (∀ b ∈ wbar0 :: [wbar1], cb.low ≤ b.low) ∧
          cb.low ∈ (wbar0 :: [wbar1]).map Bar.low ∧
          cb.volume = ((wbar0 :: [wbar1]).map Bar.volume).sum ∧
          cb.complete = true ∧
          ((∀ b ∈ wbar0 :: [wbar1], b.Valid) →
            cb.low ≤ min cb.opn cb.close ∧ max cb.opn cb.close ≤ cb.high)) :=
  ⟨by decide, by decide,
    aggregatedBar_ohlcv Timeframe.min1 0 [] wbar0 [wbar1] wbarNext (by decide) (by decide)⟩

/-- Total volume held by an aggregation state: the in-progress bar's volume
plus the volumes of all completed bars. -/
def aggVolume (st : AggState) : Int :=
  (match st.incomplete with
    | none => 0
    | some b => b.volume) + (st.completeBars.map Bar.volume).sum

theorem aggVolume_step (st : AggState) (src : Bar) (tf : Timeframe) :
    aggVolume (aggregateToTimeframe st src tf).2 = aggVolume st + src.volume := by
  rcases st with ⟨inc, cnt, cbs⟩
  cases inc with
  | none =>
      simp [aggregateToTimeframe, aggVolume, startIncompleteBar]
      ring
  | some cur =>
      by_cases h : isSameBar src.timestamp cur.timestamp tf = true
      · simp [aggregateToTimeframe, h, aggVolume, mergeBar]
        ring
      · rw [Bool.not_eq_true] at h
        simp [aggregateToTimeframe, h, aggVolume, startIncompleteBar]
        ring

/-- C4 (amended): `add_bar` performs no ordering or duplicate validation and
never raises an `OrderingError` (no such error exists in the code): every
source bar — duplicate, out of order, or in order — is absorbed into the
per-timeframe aggregation, so the total volume held by the state equals the
sum of all source-bar volumes ever fed. -/
theorem addBar_aggregates_without_ordering_check (tf : Timeframe) (bs : List Bar) :
    aggVolume (runAgg tf AggState.init bs) = (bs.map Bar.volume).sum := by
  suffices h : ∀ st : AggState, aggVolume (runAgg tf st bs) =
      aggVolume st + (bs.map Bar.volume).sum by
    have := h AggState.init
    simpa [aggVolume, AggState.init] using this
  induction bs with
  | nil => intro st; simp [runAgg]
  | cons b t ih =>
      intro st
      have hstep := aggVolume_step st b tf
      calc aggVolume (runAgg tf st (b :: t))
          = aggVolume (runAgg tf (aggregateToTimeframe st b tf).2 t) := by
            simp [runAgg]
        _ = aggVolume (aggregateToTimeframe st b tf).2 + (t.map Bar.volume).sum := ih _
        _ = aggVolume st + ((b :: t).map Bar.volume).sum := by
            rw [hstep]; simp; ring

/-- C4 (counterexample): feeding the exact same source bar twice — a
duplicate, hence also not strictly after the previous bar — raises nothing
and is not rejected: `add_bar` returns normally both times with no
completions, and the duplicate is merged into the in-progress 1-minute bar,
whose volume doubles and whose source-bar count becomes 2. -/
theorem addBar_duplicate_merged_not_rejected :
    (addBar [Timeframe.min1] (fun _ => AggState.init) wbar0).1 = [] ∧
      (addBar [Timeframe.min1]
          (addBar [Timeframe.min1] (fun _ => AggState.init) wbar0).2 wbar0).1 = [] ∧
      ((addBar [Timeframe.min1]
            (addBar [Timeframe.min1] (fun _ => AggState.init) wbar0).2 wbar0).2
          Timeframe.min1).incomplete =
        some { timestamp := 0, opn := 100, high := 100.5, low := 99.5,
               close := 100.2, volume := 2000 } ∧
      ((addBar [Timeframe.min1]
            (addBar [Timeframe.min1] (fun _ => AggState.init) wbar0).2 wbar0).2
          Timeframe.min1).count = 2 := by
  have hs1 : (aggregateToTimeframe AggState.init wbar0 Timeframe.min1).2 =
      ⟨some { timestamp := 0, opn := 100, high := 100.5, low := 99.5,
              close := 100.2, volume := 1000 }, 1, []⟩ := by
    have hts : getBarBoundary (5 : Int) Timeframe.min1 = 0 := by decide
    have : startIncompleteBar wbar0 Timeframe.min1 =
        { timestamp := 0, opn := 100, high := 100.5, low := 99.5,
          close := 100.2, volume := 1000 } := by
      simp [startIncompleteBar, wbar0, hts]
    simp [aggregateToTimeframe, AggState.init, this]
  have hmerge : mergeBar
      { timestamp := 0, opn := 100, high := 100.5, low := 99.5,
        close := 100.2, volume := 1000 } wbar0 =
      { timestamp := 0, opn := 100, high := 100.5, low := 99.5,
        close := 100.2, volume := 2000 } := by
    simp [mergeBar, wbar0]
  have hsame : isSameBar wbar0.timestamp (0 : Int) Timeframe.min1 = true := by decide
  have hs2 : (aggregateToTimeframe
      (⟨some { timestamp := 0, opn := 100, high := 100.5, low := 99.5,
               close := 100.2, volume := 1000 }, 1, []⟩ : AggState)
      wbar0 Timeframe.min1).2 =
      ⟨some { timestamp := 0, opn := 100, high := 100.5, low := 99.5,
              close := 100.2, volume := 2000 }, 2, []⟩ := by
    simp [aggregateToTimeframe, hsame, hmerge]
  have hstate : ((addBar [Timeframe.min1]
        (addBar [Timeframe.min1] (fun _ => AggState.init) wbar0).2 wbar0).2
      Timeframe.min1) =
      (aggregateToTimeframe (aggregateToTimeframe AggState.init wbar0
        Timeframe.min1).2 wbar0 Timeframe.min1).2 := by
    simp [addBar]
  refine ⟨by decide, by decide, ?_, by decide⟩
  rw [hstate, hs1, hs2]

/-- Trade record from `trade_database.py` (`@dataclass class Trade` / one row
of the `trades` table).  Timestamps are unix seconds; nullable columns are
`Option`s. -/
structure Trade where
  symbol : String
  side : String
  entryTime : Int
  exitTime : Option Int
  entryPrice : ℚ
  exitPrice : Option ℚ
  quantity : Int
  stopPrice : Option ℚ
  targetPrice : Option ℚ
  actualStop : Option ℚ
  actualTarget : Option ℚ
  commission : ℚ
  realizedPnl : Option ℚ
  pnlPct : Option ℚ
  riskAmount : ℚ
  riskRewardRatio : Option ℚ
  mae : Option ℚ
  mfe : Option ℚ
  holdTimeMinutes : Option Int
  exitReason : Option String
  sabr20Score : Option ℚ
  regime : Option String
  notes : Option String
deriving DecidableEq, Repr

/-- The `trades` table of `TradeDatabase`: rows keyed by the autoincrement
primary key. -/
structure TradeDatabase where
  rows : List (Nat × Trade)
  nextId : Nat
deriving DecidableEq, Repr

/-- Freshly created database (schema only, no rows; autoincrement starts
at 1). -/
def TradeDatabase.empty : TradeDatabase := ⟨[], 1⟩

/-- `TradeDatabase.get_trade`: `SELECT * FROM trades WHERE id = ?`. -/
def getTrade (db : TradeDatabase) (tradeId : Nat) : Option Trade :=
  (db.rows.find? (fun r => r.1 == tradeId)).map Prod.snd

/-- `UPDATE trades SET ... WHERE id = ?`: replace the row with the given id. -/
def setRow (db : TradeDatabase) (tradeId : Nat) (row : Trade) : TradeDatabase :=
  { db with rows := db.rows.map (fun r => if r.1 == tradeId then (r.1, row) else r) }

/-- `TradeDatabase.record_trade_entry`: inserts a row with the entry fields,
`mae = mfe = 0.0`, commission defaulted to `0.0` by the schema, and all exit
fields NULL; returns the assigned id. -/
def recordTradeEntry (db : TradeDatabase) (symbol side : String) (entryTime : Int)
    (entryPrice : ℚ) (quantity : Int) (stopPrice targetPrice riskAmount : ℚ)
    (sabr20Score : Option ℚ) (regime : Option String) : Nat × TradeDatabase :=
  (db.nextId,
    { rows := db.rows ++
        [(db.nextId,
          { symbol := symbol
            side := side
            entryTime := entryTime
            exitTime := none
            entryPrice := entryPrice
            exitPrice := none
            quantity := quantity
            stopPrice := some stopPrice
            targetPrice := some targetPrice
            actualStop := none
            actualTarget := none
            commission := 0
            realizedPnl := none
            pnlPct := none
            riskAmount := riskAmount
            riskRewardRatio := none
            mae := some 0
            mfe := some 0
            holdTimeMinutes := none
            exitReason := none
            sabr20Score := sabr20Score
            regime := regime
            notes := none })]
      nextId := db.nextId + 1 })

/-- Outcome of `TradeDatabase.record_trade_exit`: the early return when the
trade id is unknown, the `ZeroDivisionError` raised by the unguarded
`pnl_pct` division when `entry_price * quantity == 0`, or a normal
completion. -/
inductive ExitResult where
  | notFound
  | zeroDivision
  | ok
deriving DecidableEq, Repr

/-- `TradeDatabase.record_trade_exit`: look the trade up, compute
`realized_pnl`, `pnl_pct`, `risk_reward_ratio` and `hold_time_minutes`,
then rewrite the row.  `int(x)` on the minutes quotient truncates toward
zero, hence `Int.tdiv`.  There is no check that the trade is still open:
an already-exited row is recomputed and overwritten. -/
def recordTradeExit (db : TradeDatabase) (tradeId : Nat) (exitTime : Int)
    (exitPrice : ℚ) (exitReason : String) (commission : ℚ)
    (actualStop actualTarget : Option ℚ) (mae mfe : Option ℚ)
    (notes : Option String) : ExitResult × TradeDatabase :=
  match getTrade db tradeId with
  | none => (.notFound, db)
  | some trade =>
      let pnl : ℚ :=
        if trade.side == "BUY" then (exitPrice - trade.entryPrice) * (trade.quantity : ℚ)
        else (trade.entryPrice - exitPrice) * (trade.quantity : ℚ)
      let realizedPnl := pnl - commission
      let positionValue := trade.entryPrice * (trade.quantity : ℚ)
      if positionValue = 0 then (.zeroDivision, db)
      else
        let pnlPct := realizedPnl / positionValue * 100
        let riskRewardRatio : ℚ :=
          if trade.riskAmount > 0 then realizedPnl / trade.riskAmount else 0
        let holdTimeMinutes := Int.tdiv (exitTime - trade.entryTime) 60
        let finalMae := match mae with | some v => some v | none => trade.mae
        let finalMfe := match mfe with | some v => some v | none => trade.mfe
        (.ok,
          setRow db tradeId
            { trade with
              exitTime := some exitTime
              exitPrice := some exitPrice
              exitReason := some exitReason
              commission := commission
              actualStop := actualStop
              actualTarget := actualTarget
              realizedPnl := some realizedPnl
              pnlPct := some pnlPct
              riskRewardRatio := some riskRewardRatio
              holdTimeMinutes := some holdTimeMinutes
              mae := finalMae
              mfe := finalMfe
              notes := notes })

/-- The hypothetical unrealized P&L of a trade at a price, computed from the
trade's side, entry price and quantity (`update_trade_mae_mfe`, and the same
formula with the exit price in `record_trade_exit`). -/
def tradePnl (trade : Trade) (price : ℚ) : ℚ :=
  if trade.side == "BUY" then (price - trade.entryPrice) * (trade.quantity : ℚ)
  else (trade.entryPrice - price) * (trade.quantity : ℚ)

/-- `TradeDatabase.update_trade_mae_mfe`: no-op for a missing or closed
trade; otherwise `mae ← min(mae, unrealized_pnl)` and
`mfe ← max(mfe, unrealized_pnl)` (NULL read as `0.0`), written back only
when one of the extremes moved. -/
def updateTradeMaeMfe (db : TradeDatabase) (tradeId : Nat) (currentPrice : ℚ) :
    TradeDatabase :=
  match getTrade db tradeId with
  | none => db
  | some trade =>
      if trade.exitTime.isSome then db
      else
        let unrealizedPnl : ℚ := tradePnl trade currentPrice
        let currentMae := trade.mae.getD 0
        let currentMfe := trade.mfe.getD 0
        if unrealizedPnl < currentMae ∨ currentMfe < unrealizedPnl then
          setRow db tradeId
            { trade with
              mae := some (if unrealizedPnl < currentMae then unrealizedPnl else currentMae)
              mfe := some (if currentMfe < unrealizedPnl then unrealizedPnl else currentMfe) }
        else db

/-- Updating an existing row makes `get_trade` return the new row. -/
theorem getTrade_setRow (db : TradeDatabase) (tradeId : Nat) (row tr : Trade)
    (h : getTrade db tradeId = some tr) :
    getTrade (setRow db tradeId row) tradeId = some row := by
  rcases db with ⟨rows, nid⟩
  unfold getTrade setRow at *
  simp only at *
  induction rows with
  | nil => simp [List.find?] at h
  | cons r rest ih =>
      by_cases hk : (r.1 == tradeId) = true
      · simp [List.find?, hk]
      · have hkb : (r.1 == tradeId) = false := by
          simpa using hk
        rw [List.find?_cons_of_neg _ (by simp [hkb])] at h
        simp only [List.map_cons, hkb, Bool.false_eq_true, if_false]
        rw [List.find?_cons_of_neg _ (by simp [hkb])]
        exact ih h

/-- A `trades` table is well formed when every row's id is below the
autoincrement counter — true of every database produced by the API, and
what sqlite's `AUTOINCREMENT` guarantees. -/
def TradeDatabase.Wf (db : TradeDatabase) : Prop :=
  ∀ r ∈ db.rows, r.1 < db.nextId

theorem TradeDatabase.empty_wf : TradeDatabase.empty.Wf := by
  intro r hr
  simp [TradeDatabase.empty] at hr

/-- `record_trade_entry` preserves well-formedness. -/
theorem recordTradeEntry_wf (db : TradeDatabase) (symbol side : String)
    (entryTime : Int) (entryPrice : ℚ) (quantity : Int)
    (stopPrice targetPrice riskAmount : ℚ) (sabr20Score : Option ℚ)
    (regime : Option String) (hwf : db.Wf) :
    (recordTradeEntry db symbol side entryTime entryPrice quantity stopPrice
      targetPrice riskAmount sabr20Score regime).2.Wf := by
  intro r hr
  simp only [recordTradeEntry, List.mem_append, List.mem_singleton] at hr
  rcases hr with h | h
  · exact Nat.lt_succ_of_lt (hwf r h)
  · rw [h]
    exact Nat.lt_succ_self _

/-- The row just inserted by `record_trade_entry` is retrievable under the
returned id and carries the entry fields, zero MAE/MFE and NULL exit
fields. -/
theorem getTrade_recordTradeEntry (db : TradeDatabase) (symbol side : String)
    (entryTime : Int) (entryPrice : ℚ) (quantity : Int)
    (stopPrice targetPrice riskAmount : ℚ) (sabr20Score : Option ℚ)
    (regime : Option String) (hwf : db.Wf) :
    getTrade (recordTradeEntry db symbol side entryTime entryPrice quantity
        stopPrice targetPrice riskAmount sabr20Score regime).2
      (recordTradeEntry db symbol side entryTime entryPrice quantity
        stopPrice targetPrice riskAmount sabr20Score regime).1 =
      some
        { symbol := symbol, side := side, entryTime := entryTime,
          exitTime := none, entryPrice := entryPrice, exitPrice := none,
          quantity := quantity, stopPrice := some stopPrice,
          targetPrice := some targetPrice, actualStop := none,
          actualTarget := none, commission := 0, realizedPnl := none,
          pnlPct := none, riskAmount := riskAmount, riskRewardRatio := none,
          mae := some 0, mfe := some 0, holdTimeMinutes := none,
          exitReason := none, sabr20Score := sabr20Score, regime := regime,
          notes := none } := by
  unfold getTrade recordTradeEntry
  simp only
  rw [List.find?_append]
  have h1 : db.rows.find? (fun r => r.1 == db.nextId) = none := by
    rw [List.find?_eq_none]
    intro x hx
    simp only [beq_iff_eq]
    intro he
    exact absurd (hwf x hx) (by rw [he]; exact lt_irrefl _)
  rw [h1]
  simp [List.find?]

/-- C10: `record_trade_exit` completes only when the stored trade has
`entry_price × quantity ≠ 0`; for an existing trade with zero entry price or
zero quantity the unguarded `pnl_pct` division raises `ZeroDivisionError`
before the UPDATE executes, and the database is left unchanged. -/
theorem recordTradeExit_division_guard (db : TradeDatabase) (tradeId : Nat)
    (exitTime : Int) (exitPrice : ℚ) (exitReason : String) (commission : ℚ)
    (actualStop actualTarget mae mfe : Option ℚ) (notes : Option String) :
    (∀ trade, getTrade db tradeId = some trade →
        trade.entryPrice * (trade.quantity : ℚ) = 0 →
        recordTradeExit db tradeId exitTime exitPrice exitReason commission
          actualStop actualTarget mae mfe notes = (.zeroDivision, db)) ∧
    ((recordTradeExit db tradeId exitTime exitPrice exitReason commission
        actualStop actualTarget mae mfe notes).1 = .ok →
      ∃ trade, getTrade db tradeId = some trade ∧
        trade.entryPrice * (trade.quantity : ℚ) ≠ 0) := by
  constructor
  · intro trade h hz
    simp [recordTradeExit, h, hz]
  · intro hok
    cases hg : getTrade db tradeId with
    | none => simp [recordTradeExit, hg] at hok
    | some trade =>
        refine ⟨trade, rfl, ?_⟩
        intro hz
        simp [recordTradeExit, hg, hz] at hok

/-- Database holding a single open trade with `quantity = 0`. -/
def wdbC10 : TradeDatabase :=
  (recordTradeEntry TradeDatabase.empty "AAPL" "BUY" 0 150 0 148 154 200 none none).2

/-- The stored row of `wdbC10`. -/
def wrowC10 : Trade :=
  { symbol := "AAPL", side := "BUY", entryTime := 0, exitTime := none,
    entryPrice := 150, exitPrice := none, quantity := 0,
    stopPrice := some 148, targetPrice := some 154, actualStop := none,
    actualTarget := none, commission := 0, realizedPnl := none,
    pnlPct := none, riskAmount := 200, riskRewardRatio := none,
    mae := some 0, mfe := some 0, holdTimeMinutes := none,
    exitReason := none, sabr20Score := none, regime := none, notes := none }

/-- Witness for C10 at a stored trade with zero quantity. -/
theorem recordTradeExit_division_guard_witness :
    (getTrade wdbC10 1 = some wrowC10 ∧
        wrowC10.entryPrice * (wrowC10.quantity : ℚ) = 0) ∧
      recordTradeExit wdbC10 1 3600 151 "MANUAL" 0 none none none none none =
        (.zeroDivision, wdbC10) := by
  have hg : getTrade wdbC10 1 = some wrowC10 := by rfl
  have hz : wrowC10.entryPrice * (wrowC10.quantity : ℚ) = 0 := by
    norm_num [wrowC10]
  exact ⟨⟨hg, hz⟩,
    (recordTradeExit_division_guard wdbC10 1 3600 151 "MANUAL" 0
      none none none none none).1 wrowC10 hg hz⟩

/-- Stored MAE of a trade (NULL read as `0.0`, as the code does). -/
def maeVal (db : TradeDatabase) (tradeId : Nat) : ℚ :=
  ((getTrade db tradeId).bind Trade.mae).getD 0

/-- Stored MFE of a trade (NULL read as `0.0`, as the code does). -/
def mfeVal (db : TradeDatabase) (tradeId : Nat) : ℚ :=
  ((getTrade db tradeId).bind Trade.mfe).getD 0

/-- A sequence of MAE/MFE price updates for one trade. -/
def runMaeMfe (db : TradeDatabase) (tradeId : Nat) (ps : List ℚ) : TradeDatabase :=
  ps.foldl (fun d p => updateTradeMaeMfe d tradeId p) db

theorem updateMaeMfe_step_le (db : TradeDatabase) (tradeId : Nat) (p : ℚ) :
    maeVal (updateTradeMaeMfe db tradeId p) tradeId ≤ maeVal db tradeId ∧
      mfeVal db tradeId ≤ mfeVal (updateTradeMaeMfe db tradeId p) tradeId := by
  cases hg : getTrade db tradeId with
  | none => simp [updateTradeMaeMfe, hg]
  | some trade =>
      by_cases hx : trade.exitTime.isSome
      · simp [updateTradeMaeMfe, hg, hx]
      · by_cases hcond : tradePnl trade p < trade.mae.getD 0 ∨
            trade.mfe.getD 0 < tradePnl trade p
        · have hstep : updateTradeMaeMfe db tradeId p = setRow db tradeId
              { trade with
                mae := some (if tradePnl trade p < trade.mae.getD 0 then
                    tradePnl trade p else trade.mae.getD 0)
                mfe := some (if trade.mfe.getD 0 < tradePnl trade p then
                    tradePnl trade p else trade.mfe.getD 0) } := by
            simp [updateTradeMaeMfe, hg, hx, hcond]
          have hget := getTrade_setRow db tradeId
            { trade with
              mae := some (if tradePnl trade p < trade.mae.getD 0 then
                  tradePnl trade p else trade.mae.getD 0)
              mfe := some (if trade.mfe.getD 0 < tradePnl trade p then
                  tradePnl trade p else trade.mfe.getD 0) } trade hg
          rw [hstep]
          unfold maeVal mfeVal
          rw [hget, hg]
          constructor
          · by_cases hlt : tradePnl trade p < trade.mae.getD 0
            · simp [hlt]
              exact le_of_lt hlt
            · simp [hlt]
          · by_cases hlt : trade.mfe.getD 0 < tradePnl trade p
            · simp [hlt]
              exact le_of_lt hlt
            · simp [hlt]
        · simp [updateTradeMaeMfe, hg, hx, hcond]

theorem runMaeMfe_le (db : TradeDatabase) (tradeId : Nat) (ps : List ℚ) :
    maeVal (runMaeMfe db tradeId ps) tradeId ≤ maeVal db tradeId ∧
      mfeVal db tradeId ≤ mfeVal (runMaeMfe db tradeId ps) tradeId := by
  induction ps generalizing db with
  | nil => simp [runMaeMfe]
  | cons p t ih =>
      have hstep := updateMaeMfe_step_le db tradeId p
      have hrest := ih (updateTradeMaeMfe db tradeId p)
      have heq : runMaeMfe db tradeId (p :: t) =
          runMaeMfe (updateTradeMaeMfe db tradeId p) tradeId t := by
        simp [runMaeMfe]
      rw [heq]
      exact ⟨le_trans hrest.1 hstep.1, le_trans hstep.2 hrest.2⟩

/-- C9: an MAE/MFE update for a closed trade changes nothing; for an open
trade it stores `mae = min(stored mae, hypothetical P&L at the price)` and
`mfe = max(stored mfe, that P&L)` computed from the trade's side, entry
price and quantity; consequently over any price sequence the stored `mae`
is non-increasing and the stored `mfe` non-decreasing. -/
theorem maeMfe_min_max_monotone (db : TradeDatabase) (tradeId : Nat) :
    (∀ p trade, getTrade db tradeId = some trade → trade.exitTime.isSome = true →
        updateTradeMaeMfe db tradeId p = db) ∧
      (∀ p trade, getTrade db tradeId = some trade → trade.exitTime = none →
        ∃ trade', getTrade (updateTradeMaeMfe db tradeId p) tradeId = some trade' ∧
          trade'.mae.getD 0 = min (trade.mae.getD 0) (tradePnl trade p) ∧
          trade'.mfe.getD 0 = max (trade.mfe.getD 0) (tradePnl trade p)) ∧
      (∀ ps : List ℚ,
        maeVal (runMaeMfe db tradeId ps) tradeId ≤ maeVal db tradeId ∧
          mfeVal db tradeId ≤ mfeVal (runMaeMfe db tradeId ps) tradeId) := by
  refine ⟨?_, ?_, runMaeMfe_le db tradeId⟩
  · intro p trade hg hx
    simp [updateTradeMaeMfe, hg, hx]
  · intro p trade hg hx
    have hx' : trade.exitTime.isSome = false := by simp [hx]
    by_cases hcond : tradePnl trade p < trade.mae.getD 0 ∨
        trade.mfe.getD 0 < tradePnl trade p
    · have hstep : updateTradeMaeMfe db tradeId p = setRow db tradeId
          { trade with
            mae := some (if tradePnl trade p < trade.mae.getD 0 then
                tradePnl trade p else trade.mae.getD 0)
            mfe := some (if trade.mfe.getD 0 < tradePnl trade p then
                tradePnl trade p else trade.mfe.getD 0) } := by
        simp [updateTradeMaeMfe, hg, hx', hcond]
      refine ⟨_, by rw [hstep]; exact getTrade_setRow db tradeId _ trade hg, ?_, ?_⟩
      · by_cases hlt : tradePnl trade p < trade.mae.getD 0
        · simp [hlt, min_eq_right (le_of_lt hlt)]
        · simp [hlt, min_eq_left (le_of_not_lt hlt)]
      · by_cases hlt : trade.mfe.getD 0 < tradePnl trade p
        · simp [hlt, max_eq_right (le_of_lt hlt)]
        · simp [hlt, max_eq_left (le_of_not_lt hlt)]
    · have hcond' := hcond
      push_neg at hcond'
      have hstep : updateTradeMaeMfe db tradeId p = db := by
        simp [updateTradeMaeMfe, hg, hx', hcond]
      refine ⟨trade, by rw [hstep]; exact hg, ?_, ?_⟩
      · exact (min_eq_left hcond'.1).symm
      · exact (max_eq_left hcond'.2).symm

/-- Database holding a single open Long trade (entry 150, quantity 100). -/
def wdbC9 : TradeDatabase :=
  (recordTradeEntry TradeDatabase.empty "AAPL" "BUY" 0 150 100 148 154 200 none none).2

/-- The stored row of `wdbC9`. -/
def wrowC9 : Trade :=
  { symbol := "AAPL", side := "BUY", entryTime := 0, exitTime := none,
    entryPrice := 150, exitPrice := none, quantity := 100,
    stopPrice := some 148, targetPrice := some 154, actualStop := none,
    actualTarget := none, commission := 0, realizedPnl := none,
    pnlPct := none, riskAmount := 200, riskRewardRatio := none,
    mae := some 0, mfe := some 0, holdTimeMinutes := none,
    exitReason := none, sabr20Score := none, regime := none, notes := none }

/-- Witness for C9: an update at price 148 on the open trade of `wdbC9`. -/
theorem maeMfe_min_max_monotone_witness :
    (getTrade wdbC9 1 = some wrowC9 ∧ wrowC9.exitTime = none) ∧
      (∃ trade', getTrade (updateTradeMaeMfe wdbC9 1 148) 1 = some trade' ∧
        trade'.mae.getD 0 = min (wrowC9.mae.getD 0) (tradePnl wrowC9 148) ∧
        trade'.mfe.getD 0 = max (wrowC9.mfe.getD 0) (tradePnl wrowC9 148)) :=
  ⟨⟨rfl, rfl⟩, (maeMfe_min_max_monotone wdbC9 1).2.1 148 wrowC9 rfl rfl⟩

/-- Normal completion of `record_trade_exit` on an existing trade with
nonzero position value: the row is rewritten with the computed exit
fields. -/
theorem recordTradeExit_ok (db : TradeDatabase) (tradeId : Nat) (trade : Trade)
    (exitTime : Int) (exitPrice : ℚ) (exitReason : String) (commission : ℚ)
    (actualStop actualTarget maeArg mfeArg : Option ℚ) (notes : Option String)
    (hg : getTrade db tradeId = some trade)
    (hpv : trade.entryPrice * (trade.quantity : ℚ) ≠ 0) :
    recordTradeExit db tradeId exitTime exitPrice exitReason commission
        actualStop actualTarget maeArg mfeArg notes =
      (.ok,
        setRow db tradeId
          { trade with
            exitTime := some exitTime
            exitPrice := some exitPrice
            exitReason := some exitReason
            commission := commission
            actualStop := actualStop
            actualTarget := actualTarget
            realizedPnl := some (tradePnl trade exitPrice - commission)
            pnlPct := some ((tradePnl trade exitPrice - commission) /
                (trade.entryPrice * (trade.quantity : ℚ)) * 100)
            riskRewardRatio := some (if trade.riskAmount > 0 then
                (tradePnl trade exitPrice - commission) / trade.riskAmount else 0)
            holdTimeMinutes := some (Int.tdiv (exitTime - trade.entryTime) 60)
            mae := match maeArg with | some v => some v | none => trade.mae
            mfe := match mfeArg with | some v => some v | none => trade.mfe
            notes := notes }) := by
  simp [recordTradeExit, hg, hpv, tradePnl]

/-- C5 (amended): after `record_entry` and then `record_exit`, `get` returns
a record whose computed fields match the §4.4 formulas, with
`hold_time_minutes` the truncation toward zero of the minutes quotient
(Python `int()`), which coincides with the round-down whenever
`exit_time ≥ entry_time`.  Requires `entry_price × quantity ≠ 0` (C10's
precondition for `record_exit` to complete at all). -/
theorem journal_roundtrip_formulas (db : TradeDatabase) (symbol side : String)
    (entryTime : Int) (entryPrice : ℚ) (quantity : Int)
    (stopPrice targetPrice riskAmount : ℚ) (sabr20Score : Option ℚ)
    (regime : Option String) (exitTime : Int) (exitPrice : ℚ)
    (exitReason : String) (commission : ℚ)
    (actualStop actualTarget maeArg mfeArg : Option ℚ) (notes : Option String)
    (hwf : db.Wf) (hpv : entryPrice * (quantity : ℚ) ≠ 0) :
    (recordTradeExit
        (recordTradeEntry db symbol side entryTime entryPrice quantity stopPrice
          targetPrice riskAmount sabr20Score regime).2
        (recordTradeEntry db symbol side entryTime entryPrice quantity stopPrice
          targetPrice riskAmount sabr20Score regime).1
        exitTime exitPrice exitReason commission actualStop actualTarget
        maeArg mfeArg notes).1 = .ok ∧
      ∃ trade,
        getTrade
            (recordTradeExit
              (recordTradeEntry db symbol side entryTime entryPrice quantity
                stopPrice targetPrice riskAmount sabr20Score regime).2
              (recordTradeEntry db symbol side entryTime entryPrice quantity
                stopPrice targetPrice riskAmount sabr20Score regime).1
              exitTime exitPrice exitReason commission actualStop actualTarget
              maeArg mfeArg notes).2
            (recordTradeEntry db symbol side entryTime entryPrice quantity
              stopPrice targetPrice riskAmount sabr20Score regime).1 =
          some trade ∧
        trade.realizedPnl = some
          ((if side == "BUY" then (exitPrice - entryPrice) * (quantity : ℚ)
            else (entryPrice - exitPrice) * (quantity : ℚ)) - commission) ∧
        trade.pnlPct = some
          (((if side == "BUY" then (exitPrice - entryPrice) * (quantity : ℚ)
              else (entryPrice - exitPrice) * (quantity : ℚ)) - commission) /
            (entryPrice * (quantity : ℚ)) * 100) ∧
        trade.riskRewardRatio = some
          (if riskAmount > 0 then
            ((if side == "BUY" then (exitPrice - entryPrice) * (quantity : ℚ)
              else (entryPrice - exitPrice) * (quantity : ℚ)) - commission) /
              riskAmount
          else 0) ∧
        trade.holdTimeMinutes = some (Int.tdiv (exitTime - entryTime) 60) := by
  have hget := getTrade_recordTradeEntry db symbol side entryTime entryPrice
    quantity stopPrice targetPrice riskAmount sabr20Score regime hwf
  have hexit := recordTradeExit_ok _ _ _ exitTime exitPrice exitReason commission
    actualStop actualTarget maeArg mfeArg notes hget hpv
  refine ⟨by rw [hexit], ?_⟩
  refine ⟨_, by rw [hexit]; exact getTrade_setRow _ _ _ _ hget, ?_, ?_, ?_, ?_⟩
  · rfl
  · rfl
  · rfl
  · rfl

/-- Database holding one open trade entered at t = 60 s (entry 150,
quantity 100). -/
def wdbC5 : TradeDatabase :=
  (recordTradeEntry TradeDatabase.empty "AAPL" "BUY" 60 150 100 148 154 200 none none).2

/-- The stored row of `wdbC5`. -/
def wrowC5 : Trade :=
  { symbol := "AAPL", side := "BUY", entryTime := 60, exitTime := none,
    entryPrice := 150, exitPrice := none, quantity := 100,
    stopPrice := some 148, targetPrice := some 154, actualStop := none,
    actualTarget := none, commission := 0, realizedPnl := none,
    pnlPct := none, riskAmount := 200, riskRewardRatio := none,
    mae := some 0, mfe := some 0, holdTimeMinutes := none,
    exitReason := none, sabr20Score := none, regime := none, notes := none }

/-- C5 (counterexample): exiting 30 seconds *before* the recorded entry time
stores `hold_time_minutes = 0` (Python `int()` truncates toward zero), while
the claimed round-down of `(exit_time − entry_time)` in whole minutes is
`−1`.  So `hold_time_minutes` is not the round-down in general. -/
theorem recordExit_holdTime_not_floor :
    ((getTrade (recordTradeExit wdbC5 1 30 151 "MANUAL" 0
          none none none none none).2 1).map Trade.holdTimeMinutes) =
        some (some 0) ∧
      Int.fdiv (30 - 60) 60 = -1 ∧
      ((getTrade (recordTradeExit wdbC5 1 30 151 "MANUAL" 0
          none none none none none).2 1).map Trade.holdTimeMinutes) ≠
        some (some (Int.fdiv (30 - 60) 60)) := by
  have hg : getTrade wdbC5 1 = some wrowC5 := rfl
  have hpv : wrowC5.entryPrice * (wrowC5.quantity : ℚ) ≠ 0 := by
    norm_num [wrowC5]
  have hexit := recordTradeExit_ok wdbC5 1 wrowC5 30 151 "MANUAL" 0
    none none none none none hg hpv
  refine ⟨?_, by decide, ?_⟩
  · rw [hexit]
    rw [getTrade_setRow wdbC5 1 _ wrowC5 hg]
    simp only [Option.map_some]
    decide
  · rw [hexit]
    rw [getTrade_setRow wdbC5 1 _ wrowC5 hg]
    simp only [Option.map_some]
    decide

/-- Witness for the amended C5 at a concrete Long round trip. -/
theorem journal_roundtrip_formulas_witness :
    (TradeDatabase.empty.Wf ∧ (150 : ℚ) * ((100 : Int) : ℚ) ≠ 0) ∧
      ((recordTradeExit
          (recordTradeEntry TradeDatabase.empty "AAPL" "BUY" 0 150 100 148 154 200
            none none).2
          (recordTradeEntry TradeDatabase.empty "AAPL" "BUY" 0 150 100 148 154 200
            none none).1
          3600 153.5 "TARGET" 2 none none none none none).1 = .ok ∧
        ∃ trade,
          getTrade
              (recordTradeExit
                (recordTradeEntry TradeDatabase.empty "AAPL" "BUY" 0 150 100 148 154
                  200 none none).2
                (recordTradeEntry TradeDatabase.empty "AAPL" "BUY" 0 150 100 148 154
                  200 none none).1
                3600 153.5 "TARGET" 2 none none none none none).2
              (recordTradeEntry TradeDatabase.empty "AAPL" "BUY" 0 150 100 148 154
                200 none none).1 =
            some trade ∧
          trade.realizedPnl = some
            ((if "BUY" == "BUY" then ((153.5 : ℚ) - 150) * ((100 : Int) : ℚ)
              else ((150 : ℚ) - 153.5) * ((100 : Int) : ℚ)) - 2) ∧
          trade.pnlPct = some
            (((if "BUY" == "BUY" then ((153.5 : ℚ) - 150) * ((100 : Int) : ℚ)
                else ((150 : ℚ) - 153.5) * ((100 : Int) : ℚ)) - 2) /
              ((150 : ℚ) * ((100 : Int) : ℚ)) * 100) ∧
          trade.riskRewardRatio = some
            (if (200 : ℚ) > 0 then
              ((if "BUY" == "BUY" then ((153.5 : ℚ) - 150) * ((100 : Int) : ℚ)
                else ((150 : ℚ) - 153.5) * ((100 : Int) : ℚ)) - 2) / 200
            else 0) ∧
          trade.holdTimeMinutes = some (Int.tdiv (3600 - 0) 60)) :=
  ⟨⟨TradeDatabase.empty_wf, by norm_num⟩,
    journal_roundtrip_formulas TradeDatabase.empty "AAPL" "BUY" 0 150 100 148 154
      200 none none 3600 153.5 "TARGET" 2 none none none none none
      TradeDatabase.empty_wf (by norm_num)⟩

/-- C6 (amended): `record_trade_exit` rejects — leaving the database
unchanged — only when no row with the given id exists.  It performs no
already-exited check: called on a row that already has an `exit_time` (and
has nonzero position value), it completes and overwrites the stored exit
fields, in particular the stored `exit_price` becomes the new call's price. -/
theorem recordExit_notFound_and_overwrite (db : TradeDatabase) (tradeId : Nat)
    (exitTime : Int) (exitPrice : ℚ) (exitReason : String) (commission : ℚ)
    (actualStop actualTarget maeArg mfeArg : Option ℚ) (notes : Option String) :
    (getTrade db tradeId = none →
        recordTradeExit db tradeId exitTime exitPrice exitReason commission
          actualStop actualTarget maeArg mfeArg notes = (.notFound, db)) ∧
      (∀ trade t0, getTrade db tradeId = some trade → trade.exitTime = some t0 →
        trade.entryPrice * (trade.quantity : ℚ) ≠ 0 →
        (recordTradeExit db tradeId exitTime exitPrice exitReason commission
            actualStop actualTarget maeArg mfeArg notes).1 = .ok ∧
          ((getTrade (recordTradeExit db tradeId exitTime exitPrice exitReason
              commission actualStop actualTarget maeArg mfeArg notes).2
            tradeId).map Trade.exitPrice) = some (some exitPrice)) := by
  constructor
  · intro h
    simp [recordTradeExit, h]
  · intro trade t0 hg hx hpv
    have hexit := recordTradeExit_ok db tradeId trade exitTime exitPrice
      exitReason commission actualStop actualTarget maeArg mfeArg notes hg hpv
    refine ⟨by rw [hexit], ?_⟩
    rw [hexit]
    rw [getTrade_setRow db tradeId _ trade hg]
    rfl

/-- Already-exited single-row database for the C6 witness. -/
def wrowC6x : Trade :=
  { symbol := "AAPL", side := "BUY", entryTime := 0, exitTime := some 3600,
    entryPrice := 150, exitPrice := some 153.5, quantity := 100,
    stopPrice := some 148, targetPrice := some 154, actualStop := none,
    actualTarget := none, commission := 2, realizedPnl := some 348,
    pnlPct := some 2.32, riskAmount := 200, riskRewardRatio := some 1.74,
    mae := some 0, mfe := some 0, holdTimeMinutes := some 60,
    exitReason := some "TARGET", sabr20Score := none, regime := none,
    notes := none }

/-- Database containing only the already-exited row `wrowC6x`. -/
def wdbC6x : TradeDatabase := { rows := [(1, wrowC6x)], nextId := 2 }

/-- Witness for the amended C6: a second exit call on an already-exited row
completes and overwrites the stored exit price. -/
theorem recordExit_notFound_and_overwrite_witness :
    (getTrade wdbC6x 1 = some wrowC6x ∧ wrowC6x.exitTime = some 3600 ∧
        wrowC6x.entryPrice * (wrowC6x.quantity : ℚ) ≠ 0) ∧
      ((recordTradeExit wdbC6x 1 7200 160 "MANUAL" 0
          none none none none none).1 = .ok ∧
        ((getTrade (recordTradeExit wdbC6x 1 7200 160 "MANUAL" 0
            none none none none none).2 1).map Trade.exitPrice) =
          some (some 160)) :=
  ⟨⟨rfl, rfl, by norm_num [wrowC6x]⟩,
    (recordExit_notFound_and_overwrite wdbC6x 1 7200 160 "MANUAL" 0
      none none none none none).2 wrowC6x 3600 rfl rfl (by norm_num [wrowC6x])⟩

/-- Database holding one open trade for the C6 counterexample. -/
def wdbC6 : TradeDatabase :=
  (recordTradeEntry TradeDatabase.empty "MSFT" "BUY" 0 150 100 148 154 200 none none).2

/-- The stored row of `wdbC6`. -/
def wrowC6 : Trade :=
  { symbol := "MSFT", side := "BUY", entryTime := 0, exitTime := none,
    entryPrice := 150, exitPrice := none, quantity := 100,
    stopPrice := some 148, targetPrice := some 154, actualStop := none,
    actualTarget := none, commission := 0, realizedPnl := none,
    pnlPct := none, riskAmount := 200, riskRewardRatio := none,
    mae := some 0, mfe := some 0, holdTimeMinutes := none,
    exitReason := none, sabr20Score := none, regime := none, notes := none }

/-- C6 (counterexample): a second `record_trade_exit` on the same trade id
overwrites the exit fields written by the first call — the stored exit
price becomes 160, no longer the 153.5 written first — contradicting the
claimed rejection of a second exit. -/
theorem recordExit_second_call_overwrites :
    (recordTradeExit
        (recordTradeExit wdbC6 1 3600 153.5 "TARGET" 2 none none none none none).2
        1 7200 160 "MANUAL" 0 none none none none none).1 = .ok ∧
      ((getTrade (recordTradeExit
          (recordTradeExit wdbC6 1 3600 153.5 "TARGET" 2 none none none none none).2
          1 7200 160 "MANUAL" 0 none none none none none).2 1).map
        Trade.exitPrice) = some (some 160) ∧
      ¬ ((getTrade (recordTradeExit
          (recordTradeExit wdbC6 1 3600 153.5 "TARGET" 2 none none none none none).2
          1 7200 160 "MANUAL" 0 none none none none none).2 1).map
        Trade.exitPrice) = some (some (153.5 : ℚ)) := by
  have hg1 : getTrade wdbC6 1 = some wrowC6 := rfl
  have hpv1 : wrowC6.entryPrice * (wrowC6.quantity : ℚ) ≠ 0 := by
    norm_num [wrowC6]
  have hexit1 := recordTradeExit_ok wdbC6 1 wrowC6 3600 153.5 "TARGET" 2
    none none none none none hg1 hpv1
  rw [hexit1]
  have hg2 := getTrade_setRow wdbC6 1
    { wrowC6 with
      exitTime := some 3600
      exitPrice := some 153.5
      exitReason := some "TARGET"
      commission := 2
      actualStop := none
      actualTarget := none
      realizedPnl := some (tradePnl wrowC6 153.5 - 2)
      pnlPct := some ((tradePnl wrowC6 153.5 - 2) /
          (wrowC6.entryPrice * (wrowC6.quantity : ℚ)) * 100)
      riskRewardRatio := some (if wrowC6.riskAmount > 0 then
          (tradePnl wrowC6 153.5 - 2) / wrowC6.riskAmount else 0)
      holdTimeMinutes := some (Int.tdiv (3600 - wrowC6.entryTime) 60)
      mae := wrowC6.mae
      mfe := wrowC6.mfe
      notes := none } wrowC6 hg1
  have hpv2 : (150 : ℚ) * ((100 : Int) : ℚ) ≠ 0 := by norm_num
  have hexit2 := recordTradeExit_ok _ 1 _ 7200 160 "MANUAL" 0
    none none none none none hg2 hpv2
  rw [hexit2]
  rw [getTrade_setRow _ 1 _ _ hg2]
  refine ⟨rfl, rfl, ?_⟩
  simp only [Option.map_some, Option.some.injEq]
  intro h
  have : (160 : ℚ) = 153.5 := by
    simpa using h
  norm_num at this

/-- Modelled from the spec: the `Position` record of the position book
(spec §3).  It is referenced by `trailing_stop_manager.py` and constructed
throughout the test suite, but the shipped `order_manager.py` does not
contain it.  `side` is the serialized form of §6: "BUY" for Long, "SELL"
for Short.  Wall-clock fields (`entry_time`, `last_update`) are omitted. -/
structure Position where
  symbol : String
  side : String
  quantity : Int
  entryPrice : ℚ
  stopPrice : Option ℚ
  targetPrice : Option ℚ
  currentPrice : ℚ
  riskAmount : ℚ
deriving DecidableEq, Repr

/-- Modelled from the spec: `unrealized_pnl` (§3) — `(current − entry) × qty`
for Long, `(entry − current) × qty` for Short. -/
def Position.unrealizedPnl (p : Position) : ℚ :=
  if p.side == "BUY" then (p.currentPrice - p.entryPrice) * (p.quantity : ℚ)
  else (p.entryPrice - p.currentPrice) * (p.quantity : ℚ)

/-- Modelled from the spec: `unrealized_pnl_pct` (§3) —
`unrealized_pnl / (entry × qty) × 100`, zero when the entry value is zero. -/
def Position.unrealizedPnlPct (p : Position) : ℚ :=
  if p.entryPrice * (p.quantity : ℚ) = 0 then 0
  else p.unrealizedPnl / (p.entryPrice * (p.quantity : ℚ)) * 100

/-- Trailing-stop configuration from `trailing_stop_manager.py`
(`@dataclass class TrailingConfig`).  The `float('inf')` initializer of
`lowest_price` is modelled as `none`; wall-clock fields
(`activation_time`, `last_adjustment_time`) are omitted. -/
structure TrailingConfig where
  symbol : String
  trailingType : String
  trailingAmount : ℚ
  activationProfitPct : ℚ
  minTrailAmount : ℚ
  enabled : Bool := true
  activated : Bool := false
  activationPrice : Option ℚ := none
  adjustmentCount : Nat := 0
  highestPrice : ℚ := 0
  lowestPrice : Option ℚ := none
deriving DecidableEq, Repr

/-- Stop-adjustment audit record from `trailing_stop_manager.py`
(`@dataclass class StopAdjustment`), wall-clock timestamp omitted. -/
structure StopAdjustment where
  symbol : String
  oldStop : Option ℚ
  newStop : ℚ
  triggerPrice : ℚ
  trailingType : String
  trailingAmount : ℚ
  profitPct : ℚ
deriving DecidableEq, Repr

/-- The water-mark update block of `_calculate_new_stop_price`: Long raises
`highest_price`, Short lowers `lowest_price` (any price is below the
`float('inf')` sentinel). -/
def updateWatermark (cfg : TrailingConfig) (currentPrice : ℚ)
    (positionSide : String) : TrailingConfig :=
  if positionSide == "BUY" then
    if currentPrice > cfg.highestPrice then { cfg with highestPrice := currentPrice }
    else cfg
  else
    match cfg.lowestPrice with
    | none => { cfg with lowestPrice := some currentPrice }
    | some l =>
        if currentPrice < l then { cfg with lowestPrice := some currentPrice }
        else cfg

/-- The trail-distance block of `_calculate_new_stop_price`: percentage uses
`amount / 100`; ATR uses `(atr × amount) / current_price`, falling back to
the percentage form when the ATR is unavailable or zero.  The ATR value
fetched from the indicator engine is an oracle argument. -/
def trailDistance (cfg : TrailingConfig) (currentPrice : ℚ)
    (atrValue : Option ℚ) : ℚ :=
  if cfg.trailingType == "percentage" then cfg.trailingAmount / 100
  else
    match atrValue with
    | none => cfg.trailingAmount / 100
    | some a =>
        if a = 0 then cfg.trailingAmount / 100
        else a * cfg.trailingAmount / currentPrice

/-- The candidate-stop block of `_calculate_new_stop_price`: trail below the
high water mark (Long) or above the low water mark (Short); return `None`
when the candidate is not strictly better than the current stop, or better
by less than one basis point.  The Short branch with an untouched
`float('inf')` water mark is unreachable once activated (activation sets
it) and yields no adjustment. -/
def candidateStop (cfg : TrailingConfig) (positionSide : String)
    (currentStop trailPct : ℚ) : Option ℚ :=
  if positionSide == "BUY" then
    let newStop := cfg.highestPrice * (1 - trailPct)
    if currentStop > 0 ∧ newStop ≤ currentStop then none
    else if currentStop > 0 ∧ (newStop - currentStop) / currentStop * 100 < 1 / 100 then
      none
    else some newStop
  else
    match cfg.lowestPrice with
    | none => none
    | some l =>
        let newStop := l * (1 + trailPct)
        if currentStop > 0 ∧ newStop ≥ currentStop then none
        else if currentStop > 0 ∧ (currentStop - newStop) / currentStop * 100 < 1 / 100 then
          none
        else some newStop

/-- `TrailingStopManager._calculate_new_stop_price` for a present config:
compute the profit percentage, handle lazy activation, update the water
mark, compute and clamp the trail, and return the candidate stop (if any)
together with the mutated config.  Python would raise on `entry_price = 0`
(unguarded division); the claims below are stated away from that input. -/
def calculateNewStopPrice (cfg : TrailingConfig) (currentPrice : ℚ)
    (positionSide : String) (entryPrice : ℚ) (currentStop : ℚ)
    (atrValue : Option ℚ) : Option ℚ × TrailingConfig :=
  let profitPct :=
    if positionSide == "BUY" then (currentPrice - entryPrice) / entryPrice * 100
    else (entryPrice - currentPrice) / entryPrice * 100
  if cfg.activated = false ∧ profitPct < cfg.activationProfitPct then (none, cfg)
  else
    let cfg1 :=
      if cfg.activated then cfg
      else
        { cfg with
          activated := true
          activationPrice := some currentPrice
          highestPrice := currentPrice
          lowestPrice := some currentPrice }
    let cfg2 := updateWatermark cfg1 currentPrice positionSide
    let trailPct := max (trailDistance cfg2 currentPrice atrValue) cfg2.minTrailAmount
    (candidateStop cfg2 positionSide currentStop trailPct, cfg2)

/-- The per-symbol body of `TrailingStopManager.check_and_update_stops` for
an enabled config whose position is present: skip when the position has no
price; otherwise call `_calculate_new_stop_price` with
`current_stop = position.stop_price or 0.0`; on a candidate, record a
`StopAdjustment` and bump `adjustment_count`.  The position itself is NOT
modified — no `modify_stop` call occurs in this method. -/
def checkSymbolTrailing (cfg : TrailingConfig) (pos : Position)
    (atrValue : Option ℚ) : TrailingConfig × Option StopAdjustment :=
  if cfg.enabled = false then (cfg, none)
  else if pos.currentPrice = 0 then (cfg, none)
  else
    match calculateNewStopPrice cfg pos.currentPrice pos.side pos.entryPrice
      (pos.stopPrice.getD 0) atrValue with
    | (none, cfg') => (cfg', none)
    | (some newStop, cfg') =>
        ({ cfg' with adjustmentCount := cfg'.adjustmentCount + 1 },
          some
            { symbol := cfg.symbol
              oldStop := pos.stopPrice
              newStop := newStop
              triggerPrice := pos.currentPrice
              trailingType := cfg.trailingType
              trailingAmount := cfg.trailingAmount
              profitPct := pos.unrealizedPnlPct })

/-- Repeated trailing evaluations over a sequence of (position snapshot,
ATR oracle) ticks. -/
def runTrailing (cfg : TrailingConfig) (ticks : List (Position × Option ℚ)) :
    TrailingConfig :=
  ticks.foldl (fun c t => (checkSymbolTrailing c t.1 t.2).1) cfg

theorem updateWatermark_activated (cfg : TrailingConfig) (p : ℚ) (s : String) :
    (updateWatermark cfg p s).activated = cfg.activated := by
  unfold updateWatermark
  split
  · split <;> rfl
  · split
    · rfl
    · split <;> rfl

theorem calculateNewStopPrice_activated_mono (cfg : TrailingConfig)
    (currentPrice : ℚ) (positionSide : String) (entryPrice currentStop : ℚ)
    (atrValue : Option ℚ) (h : cfg.activated = true) :
    (calculateNewStopPrice cfg currentPrice positionSide entryPrice currentStop
      atrValue).2.activated = true := by
  simp [calculateNewStopPrice, h, updateWatermark_activated]

theorem checkSymbolTrailing_activated_mono (cfg : TrailingConfig) (pos : Position)
    (atrValue : Option ℚ) (h : cfg.activated = true) :
    (checkSymbolTrailing cfg pos atrValue).1.activated = true := by
  cases hc : calculateNewStopPrice cfg pos.currentPrice pos.side pos.entryPrice
      (pos.stopPrice.getD 0) atrValue with
  | mk cand cfg' =>
      have h2 := calculateNewStopPrice_activated_mono cfg pos.currentPrice pos.side
        pos.entryPrice (pos.stopPrice.getD 0) atrValue h
      rw [hc] at h2
      unfold checkSymbolTrailing
      rw [hc]
      split
      · exact h
      · split
        · exact h
        · cases cand
          · simpa using h2
          · simpa using h2

theorem runTrailing_activated_mono (cfg : TrailingConfig)
    (ticks : List (Position × Option ℚ)) (h : cfg.activated = true) :
    (runTrailing cfg ticks).activated = true := by
  induction ticks generalizing cfg with
  | nil => exact h
  | cons t ts ih =>
      have hstep := checkSymbolTrailing_activated_mono cfg t.1 t.2 h
      have heq : runTrailing cfg (t :: ts) =
          runTrailing (checkSymbolTrailing cfg t.1 t.2).1 ts := by
        simp [runTrailing]
      rw [heq]
      exact ih _ hstep

/-- C8: trailing activation is sticky — once a config's `activated` flag is
true, no evaluation (`_calculate_new_stop_price`) and no sequence of price
ticks through the per-symbol evaluation body ever resets it to false. -/
theorem trailing_activation_sticky (cfg : TrailingConfig) (h : cfg.activated = true) :
    (∀ (currentPrice : ℚ) (positionSide : String) (entryPrice currentStop : ℚ)
        (atrValue : Option ℚ),
        (calculateNewStopPrice cfg currentPrice positionSide entryPrice currentStop
          atrValue).2.activated = true) ∧
      (∀ ticks : List (Position × Option ℚ),
        (runTrailing cfg ticks).activated = true) :=
  ⟨fun currentPrice positionSide entryPrice currentStop atrValue =>
      calculateNewStopPrice_activated_mono cfg currentPrice positionSide entryPrice
        currentStop atrValue h,
    fun ticks => runTrailing_activated_mono cfg ticks h⟩

/-- Activated percentage-trailing config for the C8 witness. -/
def wcfgC8 : TrailingConfig :=
  { symbol := "AAPL", trailingType := "percentage", trailingAmount := 2,
    activationProfitPct := 1, minTrailAmount := 1 / 200, enabled := true,
    activated := true, activationPrice := some 153, adjustmentCount := 1,
    highestPrice := 153, lowestPrice := some 153 }

/-- Long AAPL position snapshot used by the trailing witnesses. -/
def wposC8 : Position :=
  { symbol := "AAPL", side := "BUY", quantity := 100, entryPrice := 150,
    stopPrice := some 148, targetPrice := some 154, currentPrice := 151,
    riskAmount := 200 }

/-- Witness for C8 at a concrete activated config and a price sequence. -/
theorem trailing_activation_sticky_witness :
    wcfgC8.activated = true ∧
      ((∀ (currentPrice : ℚ) (positionSide : String)
          (entryPrice currentStop : ℚ) (atrValue : Option ℚ),
          (calculateNewStopPrice wcfgC8 currentPrice positionSide entryPrice
            currentStop atrValue).2.activated = true) ∧
        (∀ ticks : List (Position × Option ℚ),
          (runTrailing wcfgC8 ticks).activated = true)) :=
  ⟨rfl, trailing_activation_sticky wcfgC8 rfl⟩

/-- Fresh (not yet activated) 2 %-trailing config, activation at 1 % profit. -/
def wcfgC3 : TrailingConfig :=
  { symbol := "AAPL", trailingType := "percentage", trailingAmount := 2,
    activationProfitPct := 1, minTrailAmount := 1 / 200 }

/-- The same config after the first evaluation at price 153 activated it. -/
def wcfgC3act : TrailingConfig :=
  { symbol := "AAPL", trailingType := "percentage", trailingAmount := 2,
    activationProfitPct := 1, minTrailAmount := 1 / 200, enabled := true,
    activated := true, activationPrice := some 153, adjustmentCount := 0,
    highestPrice := 153, lowestPrice := some 153 }

/-- Long AAPL: entry 150, stop 148, current price 153 (2 % profit). -/
def wposC3 : Position :=
  { symbol := "AAPL", side := "BUY", quantity := 100, entryPrice := 150,
    stopPrice := some 148, targetPrice := some 154, currentPrice := 153,
    riskAmount := 200 }

theorem calcC3_first :
    calculateNewStopPrice wcfgC3 153 "BUY" 150 148 none =
      (some (7497 / 50), wcfgC3act) := by
  have hmax : max ((2 : ℚ) / 100) (1 / 200) = 2 / 100 := by
    rw [max_eq_left]
    norm_num
  norm_num [calculateNewStopPrice, updateWatermark, trailDistance, candidateStop,
    wcfgC3, wcfgC3act, hmax]

theorem calcC3_second :
    calculateNewStopPrice { wcfgC3act with adjustmentCount := 1 } 153 "BUY" 150 148
        none =
      (some (7497 / 50), { wcfgC3act with adjustmentCount := 1 }) := by
  have hmax : max ((2 : ℚ) / 100) (1 / 200) = 2 / 100 := by
    rw [max_eq_left]
    norm_num
  norm_num [calculateNewStopPrice, updateWatermark, trailDistance, candidateStop,
    wcfgC3act, hmax]

/-- C3 fails on the code: `check_and_update_stops` never calls
`modify_stop` and never writes the new stop back to the position, so with
the position snapshot unchanged (`stop_price` still 148) a second
evaluation at the same price 153 produces a second, identical adjustment:
`adjustment_count` reaches 2, where the claim allows at most one adjustment
in total. -/
theorem trailing_evaluate_twice_two_adjustments :
    ((checkSymbolTrailing wcfgC3 wposC3 none).2).isSome = true ∧
      ((checkSymbolTrailing (checkSymbolTrailing wcfgC3 wposC3 none).1 wposC3
          none).2).isSome = true ∧
      ((checkSymbolTrailing (checkSymbolTrailing wcfgC3 wposC3 none).1 wposC3
          none).1).adjustmentCount = 2 := by
  have hstep1 : (checkSymbolTrailing wcfgC3 wposC3 none).1 =
      { wcfgC3act with adjustmentCount := 1 } ∧
      ((checkSymbolTrailing wcfgC3 wposC3 none).2).isSome = true := by
    unfold checkSymbolTrailing
    rw [show wposC3.stopPrice.getD 0 = 148 from rfl]
    rw [show wposC3.currentPrice = 153 from rfl]
    rw [show wposC3.side = "BUY" from rfl]
    rw [show wposC3.entryPrice = 150 from rfl]
    rw [calcC3_first]
    norm_num [wcfgC3, wcfgC3act]
  have hstep2 : ((checkSymbolTrailing { wcfgC3act with adjustmentCount := 1 }
      wposC3 none).2).isSome = true ∧
      ((checkSymbolTrailing { wcfgC3act with adjustmentCount := 1 } wposC3
        none).1).adjustmentCount = 2 := by
    unfold checkSymbolTrailing
    rw [show wposC3.stopPrice.getD 0 = 148 from rfl]
    rw [show wposC3.currentPrice = 153 from rfl]
    rw [show wposC3.side = "BUY" from rfl]
    rw [show wposC3.entryPrice = 150 from rfl]
    rw [calcC3_second]
    norm_num [wcfgC3act]
  refine ⟨hstep1.2, ?_, ?_⟩
  · rw [hstep1.1]
    exact hstep2.1
  · rw [hstep1.1]
    exact hstep2.2

/-- Modelled from the spec: `PositionBook.modify_stop` (spec §4.2).  The
method is exercised by `tests/test_trailing_stops.py`
(`test_order_manager_modify_stop`) but absent from the shipped
`order_manager.py`.  Accept iff the change is monotonic in the safe
direction — Long: `new_stop > current_stop` or no current stop; Short:
`new_stop < current_stop` or none — set the stop on acceptance, reject
silently (return false, no change, no exception) otherwise. -/
def modifyStop (p : Position) (newStop : ℚ) : Bool × Position :=
  if p.side == "BUY" then
    match p.stopPrice with
    | none => (true, { p with stopPrice := some newStop })
    | some s =>
        if newStop > s then (true, { p with stopPrice := some newStop })
        else (false, p)
  else
    match p.stopPrice with
    | none => (true, { p with stopPrice := some newStop })
    | some s =>
        if newStop < s then (true, { p with stopPrice := some newStop })
        else (false, p)

/-- The stop prices accepted by a sequence of `modify_stop` calls. -/
def acceptedStops (p : Position) (cs : List ℚ) : List ℚ :=
  match cs with
  | [] => []
  | c :: t =>
      if (modifyStop p c).1 then c :: acceptedStops (modifyStop p c).2 t
      else acceptedStops (modifyStop p c).2 t

theorem modifyStop_side (p : Position) (c : ℚ) : (modifyStop p c).2.side = p.side := by
  unfold modifyStop
  split
  · split
    · rfl
    · split <;> rfl
  · split
    · rfl
    · split <;> rfl

theorem modifyStop_accept_stop (p : Position) (c : ℚ)
    (h : (modifyStop p c).1 = true) : (modifyStop p c).2.stopPrice = some c := by
  cases hstop : p.stopPrice with
  | none =>
      by_cases hside : (p.side == "BUY") = true
      · simp [modifyStop, hside, hstop]
      · simp [modifyStop, hside, hstop]
  | some s =>
      by_cases hside : (p.side == "BUY") = true
      · by_cases hc : c > s
        · simp [modifyStop, hside, hstop, hc]
        · simp [modifyStop, hside, hstop, hc] at h
      · by_cases hc : c < s
        · simp [modifyStop, hside, hstop, hc]
        · simp [modifyStop, hside, hstop, hc] at h

theorem modifyStop_reject (p : Position) (c : ℚ)
    (h : (modifyStop p c).1 = false) : (modifyStop p c).2 = p := by
  cases hstop : p.stopPrice with
  | none =>
      by_cases hside : (p.side == "BUY") = true
      · simp [modifyStop, hside, hstop] at h
      · simp [modifyStop, hside, hstop] at h
  | some s =>
      by_cases hside : (p.side == "BUY") = true
      · by_cases hc : c > s
        · simp [modifyStop, hside, hstop, hc] at h
        · simp [modifyStop, hside, hstop, hc]
      · by_cases hc : c < s
        · simp [modifyStop, hside, hstop, hc] at h
        · simp [modifyStop, hside, hstop, hc]

theorem modifyStop_accept_long (p : Position) (c s : ℚ) (hside : p.side = "BUY")
    (hstop : p.stopPrice = some s) : (modifyStop p c).1 = true ↔ s < c := by
  unfold modifyStop
  by_cases hc : s < c
  · simp [hside, hstop, hc]
  · simp [hside, hstop, hc]

theorem modifyStop_accept_short (p : Position) (c s : ℚ) (hside : p.side = "SELL")
    (hstop : p.stopPrice = some s) : (modifyStop p c).1 = true ↔ c < s := by
  unfold modifyStop
  by_cases hc : c < s
  · simp [hside, hstop, hc]
  · simp [hside, hstop, hc]

theorem acceptedStops_chain_long (p : Position) (cs : List ℚ)
    (hside : p.side = "BUY") :
    List.Chain' (· < ·) (acceptedStops p cs) ∧
      (∀ s, p.stopPrice = some s → ∀ x ∈ acceptedStops p cs, s < x) := by
  induction cs generalizing p with
  | nil => simp [acceptedStops]
  | cons c t ih =>
      have hside' : (modifyStop p c).2.side = "BUY" := by
        rw [modifyStop_side, hside]
      obtain ⟨ihc, ihm⟩ := ih (modifyStop p c).2 hside'
      by_cases hacc : (modifyStop p c).1 = true
      · have hstop' : (modifyStop p c).2.stopPrice = some c :=
          modifyStop_accept_stop p c hacc
        have htail : ∀ x ∈ acceptedStops (modifyStop p c).2 t, c < x :=
          fun x hx => ihm c hstop' x hx
        have hlist : acceptedStops p (c :: t) =
            c :: acceptedStops (modifyStop p c).2 t := by
          simp [acceptedStops, hacc]
        rw [hlist]
        constructor
        · rw [List.chain'_cons']
          refine ⟨fun y hy => htail y (List.mem_of_mem_head? hy), ihc⟩
        · intro s hs x hx
          rcases List.mem_cons.1 hx with h' | h'
          · subst h'
            cases hstop0 : p.stopPrice with
            | none => rw [hstop0] at hs; cases hs
            | some s0 =>
                rw [hstop0] at hs
                have hs0 : s0 = s := by injection hs
                subst hs0
                exact (modifyStop_accept_long p x s0 hside hstop0).1 hacc
          · exact lt_trans (by
              cases hstop0 : p.stopPrice with
              | none => rw [hstop0] at hs; cases hs
              | some s0 =>
                  rw [hstop0] at hs
                  have hs0 : s0 = s := by injection hs
                  subst hs0
                  exact (modifyStop_accept_long p c s0 hside hstop0).1 hacc)
              (htail x h')
      · have hrej : (modifyStop p c).1 = false := by
          simpa using hacc
        have hsame : (modifyStop p c).2 = p := modifyStop_reject p c hrej
        have hlist : acceptedStops p (c :: t) = acceptedStops (modifyStop p c).2 t := by
          simp [acceptedStops, hrej]
        rw [hlist]
        refine ⟨ihc, ?_⟩
        intro s hs x hx
        exact ihm s (by rw [hsame]; exact hs) x hx

theorem acceptedStops_chain_short (p : Position) (cs : List ℚ)
    (hside : p.side = "SELL") :
    List.Chain' (· > ·) (acceptedStops p cs) ∧
      (∀ s, p.stopPrice = some s → ∀ x ∈ acceptedStops p cs, x < s) := by
  induction cs generalizing p with
  | nil => simp [acceptedStops]
  | cons c t ih =>
      have hside' : (modifyStop p c).2.side = "SELL" := by
        rw [modifyStop_side, hside]
      obtain ⟨ihc, ihm⟩ := ih (modifyStop p c).2 hside'
      by_cases hacc : (modifyStop p c).1 = true
      · have hstop' : (modifyStop p c).2.stopPrice = some c :=
          modifyStop_accept_stop p c hacc
        have htail : ∀ x ∈ acceptedStops (modifyStop p c).2 t, x < c :=
          fun x hx => ihm c hstop' x hx
        have hlist : acceptedStops p (c :: t) =
            c :: acceptedStops (modifyStop p c).2 t := by
          simp [acceptedStops, hacc]
        rw [hlist]
        constructor
        · rw [List.chain'_cons']
          refine ⟨fun y hy => htail y (List.mem_of_mem_head? hy), ihc⟩
        · intro s hs x hx
          rcases List.mem_cons.1 hx with h' | h'
          · subst h'
            cases hstop0 : p.stopPrice with
            | none => rw [hstop0] at hs; cases hs
            | some s0 =>
                rw [hstop0] at hs
                have hs0 : s0 = s := by injection hs
                subst hs0
                exact (modifyStop_accept_short p x s0 hside hstop0).1 hacc
          · exact lt_trans (htail x h') (by
              cases hstop0 : p.stopPrice with
              | none => rw [hstop0] at hs; cases hs
              | some s0 =>
                  rw [hstop0] at hs
                  have hs0 : s0 = s := by injection hs
                  subst hs0
                  exact (modifyStop_accept_short p c s0 hside hstop0).1 hacc)
      · have hrej : (modifyStop p c).1 = false := by
          simpa using hacc
        have hsame : (modifyStop p c).2 = p := modifyStop_reject p c hrej
        have hlist : acceptedStops p (c :: t) = acceptedStops (modifyStop p c).2 t := by
          simp [acceptedStops, hrej]
        rw [hlist]
        refine ⟨ihc, ?_⟩
        intro s hs x hx
        exact ihm s (by rw [hsame]; exact hs) x hx

/-- C1: `modify_stop` (modelled from spec §4.2, the method being absent from
the shipped `order_manager.py`) accepts iff the change is monotonic in the
safe direction — Long: current stop absent or `new_stop` above it; Short:
absent or below — stores the new stop exactly on acceptance, returns false
leaving the position unchanged otherwise (never raising), and consequently
the accepted stop prices of any call sequence are strictly increasing for a
Long position and strictly decreasing for a Short one. -/
theorem modifyStop_monotonic_spec (p : Position) (newStop : ℚ) (cs : List ℚ) :
    (p.stopPrice = none → (modifyStop p newStop).1 = true) ∧
      (p.side = "BUY" → ∀ s, p.stopPrice = some s →
        ((modifyStop p newStop).1 = true ↔ s < newStop)) ∧
      (p.side = "SELL" → ∀ s, p.stopPrice = some s →
        ((modifyStop p newStop).1 = true ↔ newStop < s)) ∧
      ((modifyStop p newStop).1 = true →
        (modifyStop p newStop).2.stopPrice = some newStop) ∧
      ((modifyStop p newStop).1 = false → (modifyStop p newStop).2 = p) ∧
      (p.side = "BUY" → List.Chain' (· < ·) (acceptedStops p cs)) ∧
      (p.side = "SELL" → List.Chain' (· > ·) (acceptedStops p cs)) := by
  refine ⟨?_, ?_, ?_, modifyStop_accept_stop p newStop,
    modifyStop_reject p newStop, ?_, ?_⟩
  · intro hstop
    by_cases hside : (p.side == "BUY") = true
    · simp [modifyStop, hside, hstop]
    · simp [modifyStop, hside, hstop]
  · intro hside s hs
    exact modifyStop_accept_long p newStop s hside hs
  · intro hside s hs
    exact modifyStop_accept_short p newStop s hside hs
  · intro hside
    exact (acceptedStops_chain_long p cs hside).1
  · intro hside
    exact (acceptedStops_chain_short p cs hside).1

/-- Long AAPL position with stop 148 for the C1 witness (spec §8 scenario 4). -/
def wposC1 : Position :=
  { symbol := "AAPL", side := "BUY", quantity := 100, entryPrice := 150,
    stopPrice := some 148, targetPrice := some 154, currentPrice := 150,
    riskAmount := 200 }

/-- Witness for C1 at the concrete Long AAPL position, candidates 147 then
149. -/
theorem modifyStop_monotonic_spec_witness :
    (wposC1.side = "BUY" ∧ wposC1.stopPrice = some 148) ∧
      ((modifyStop wposC1 149).1 = true ↔ (148 : ℚ) < 149) ∧
      ((modifyStop wposC1 147).1 = true ↔ (148 : ℚ) < 147) ∧
      List.Chain' (· < ·) (acceptedStops wposC1 [147, 149]) :=
  ⟨⟨rfl, rfl⟩,
    (modifyStop_monotonic_spec wposC1 149 [147, 149]).2.1 rfl 148 rfl,
    (modifyStop_monotonic_spec wposC1 147 [147, 149]).2.1 rfl 148 rfl,
    (modifyStop_monotonic_spec wposC1 149 [147, 149]).2.2.2.2.2.1 rfl⟩
